import Mathlib

/-!
Verification development for the bramify work-hour logging assistant.

The definitions below are a shallow embedding of the Python source:
  * src/integrations/client_mapper.py   (ClientMapper)
  * src/integrations/google_sheets/client.py   (GoogleSheetsClient)
  * src/core/bot.py   (BramifyBot message processing / slot filling)

Strings are modelled over their character lists; the embedding covers the
ASCII fragment of Python's str.lower/str.upper and of the regexes used by
the source (the repository's data is ASCII).  The Google Sheets backend is
modelled as a pure grid of string cells with the read/write trimming
behaviour of the values API.
-/

namespace Bramify

/-- First list is a leading segment of the second. -/
def listStarts : List Char → List Char → Bool
  | [], _ => true
  | _ :: _, [] => false
  | a :: as, b :: bs => a == b && listStarts as bs

/-- First list occurs contiguously inside the second. -/
def listInfix (needle : List Char) : List Char → Bool
  | [] => needle.isEmpty
  | b :: bs => listStarts needle (b :: bs) || listInfix needle bs

/-- Python `needle in hay`: contiguous substring test. -/
def pyContains (needle hay : String) : Bool :=
  listInfix needle.toList hay.toList

/-- Python `s.lower()` (ASCII fragment). -/
def pyLower (s : String) : String :=
  String.mk (s.toList.map Char.toLower)

/-- Python `s.upper()` (ASCII fragment). -/
def pyUpper (s : String) : String :=
  String.mk (s.toList.map Char.toUpper)

/-- ASCII whitespace recognised by Python's str.strip(). -/
def isPySpace (c : Char) : Bool :=
  c = ' ' || c = '\t' || c = '\n' || c = '\r' || c = '\x0b' || c = '\x0c'

/-- Python `s.strip()`. -/
def pyStrip (s : String) : String :=
  String.mk (((s.toList.dropWhile isPySpace).reverse.dropWhile isPySpace).reverse)

/-- Python `s.startswith(p)`. -/
def pyStartsWith (p s : String) : Bool :=
  listStarts p.toList s.toList

/-- Worker for pySplitOn. -/
def splitOnCharAux (sep : Char) : List Char → List Char → List (List Char)
  | [], acc => [acc.reverse]
  | c :: cs, acc =>
    if c = sep then acc.reverse :: splitOnCharAux sep cs []
    else splitOnCharAux sep cs (c :: acc)

/-- Python `s.split(sep)` for a one-character separator (keeps empty parts,
exactly like str.split with an explicit separator). -/
def pySplitOn (sep : Char) (s : String) : List String :=
  (splitOnCharAux sep s.toList []).map String.mk

/-- Insertion-ordered dictionaries (Python dicts preserve insertion order;
updating an existing key keeps its position). -/
def alistGet {κ α : Type} [DecidableEq κ] : List (κ × α) → κ → Option α
  | [], _ => none
  | (k, v) :: rest, key => if k = key then some v else alistGet rest key

/-- Dictionary update: replace in place, append when the key is new. -/
def alistSet {κ α : Type} [DecidableEq κ] : List (κ × α) → κ → α → List (κ × α)
  | [], key, v => [(key, v)]
  | (k, w) :: rest, key, v =>
    if k = key then (k, v) :: rest else (k, w) :: alistSet rest key v

/-- Python `del d[key]`. -/
def alistErase {κ α : Type} [DecidableEq κ] : List (κ × α) → κ → List (κ × α)
  | [], _ => []
  | (k, w) :: rest, key => if k = key then rest else (k, w) :: alistErase rest key

/-!  ClientMapper (src/integrations/client_mapper.py).  The JSON backing
file is outside the model: load/save failures are logged and ignored by the
source, so every operation below acts on the in-memory dict only. -/

abbrev ClientStore := List (String × String)

/-- The filler front markers stripped by _normalize_client_name, in source
order; each is tested (and removed at most once) on the evolving string. -/
def fillerWords : List String := ["the ", "company ", "client "]

/-- ClientMapper._normalize_client_name: lowercase, strip the filler front
markers once each in order, keep only [a-z0-9] characters. -/
def normalize_client_name (s : String) : String :=
  if s = "" then ""
  else
    let n := pyLower s
    let n := fillerWords.foldl
      (fun acc p => if pyStartsWith p acc then String.mk (acc.toList.drop p.length) else acc) n
    String.mk (n.toList.filter fun c =>
      ('a' ≤ c && c ≤ 'z') || ('0' ≤ c && c ≤ '9'))

/-- ClientMapper._normalize_code: uppercase, keep letters only, truncate or
right-pad with 'X' to exactly three characters (empty input stays empty). -/
def normalize_code (s : String) : String :=
  if s = "" then ""
  else
    let letters := (pyUpper s).toList.filter fun c => 'A' ≤ c && c ≤ 'Z'
    if letters.length > 3 then String.mk (letters.take 3)
    else String.mk (letters ++ List.replicate (3 - letters.length) 'X')

/-- ClientMapper.get_code: exact lookup on the normalized name, else the
first stored pair whose key is related to the normalized name by substring
containment in either direction (insertion order), else none. -/
def get_code (store : ClientStore) (client_name : String) : Option String :=
  let n := normalize_client_name client_name
  match alistGet store n with
  | some code => some code
  | none =>
    store.findSome? fun kv =>
      if pyContains n kv.1 || pyContains kv.1 n then some kv.2 else none

/-- ClientMapper.add_mapping (the synchronous save to file is outside the
model; its failure is logged and ignored by the source). -/
def add_mapping (store : ClientStore) (client_name code : String) : ClientStore :=
  alistSet store (normalize_client_name client_name) (normalize_code code)

/-- Word characters of the regex r'\b\w+\b' (ASCII fragment). -/
def isWordChar (c : Char) : Bool := c.isAlphanum || c = '_'

/-- Worker: splits a character list into the maximal runs of word
characters, i.e. the matches of re.findall(r'\b\w+\b', ...). -/
def wordRunsAux : List Char → List Char → List (List Char)
  | [], acc => if acc.isEmpty then [] else [acc.reverse]
  | c :: cs, acc =>
    if isWordChar c then wordRunsAux cs (c :: acc)
    else if acc.isEmpty then wordRunsAux cs []
    else acc.reverse :: wordRunsAux cs []

def wordRuns (l : List Char) : List (List Char) := wordRunsAux l []

/-- The body of suggest_code_for_client once the words are split: a single
word takes its first three characters padded with 'X'; several words take
the first character of the first three words, padded with the repeated
first character of the first word.  (Runs produced by wordRuns are never
empty, so the headD defaults are dead.) -/
def suggestFromRuns : List (List Char) → String
  | [] => "UNK"
  | [w] =>
    if w.length ≥ 3 then String.mk (w.take 3)
    else String.mk (w ++ List.replicate (3 - w.length) 'X')
  | ws =>
    let code := (ws.take 3).map fun w => w.headD ' '
    let code :=
      if code.length < 3 then
        code ++ List.replicate (3 - code.length) ((ws.headD []).headD ' ')
      else code
    String.mk code

/-- ClientMapper.suggest_code_for_client. -/
def suggest_code_for_client (client_name : String) : String :=
  if client_name = "" then "UNK"
  else suggestFromRuns (wordRuns (pyUpper client_name).toList)

/-!  Schema discovery (GoogleSheetsClient._detect_columns). -/

abbrev ColumnMapping := List (String × Nat)

/-- The hard-coded default column mapping of _detect_columns. -/
def defaultColumnMapping : ColumnMapping :=
  [("date", 0), ("client", 1), ("description", 2),
   ("hours", 3), ("unbillable_hours", 4), ("revenue", 5)]

def sixFields : List String :=
  ["date", "client", "description", "hours", "unbillable_hours", "revenue"]

/-- One pass of the elif chain of _detect_columns for a single header cell:
the semantic field this header is assigned to, if any. -/
def headerField (header : String) : Option String :=
  let h := pyLower header
  if pyContains "datum" h || pyContains "date" h then some "date"
  else if pyContains "klant" h || pyContains "client" h then some "client"
  else if pyContains "beschrijving" h || pyContains "description" h then some "description"
  else if pyContains "uren" h && !pyContains "onbetaald" h && !pyContains "unbillable" h then
    some "hours"
  else if (pyContains "onbetaald" h || pyContains "unbillable" h) && pyContains "uren" h then
    some "unbillable_hours"
  else if pyContains "omzet" h || pyContains "revenue" h then some "revenue"
  else none

/-- The header loop of _detect_columns: start from the default mapping and
execute self.column_mapping[field] = i for every header matching a field. -/
def detectColumnsStep (headers : List String) : ColumnMapping :=
  headers.enum.foldl
    (fun m p =>
      match headerField p.2 with
      | some k => alistSet m k p.1
      | none => m)
    defaultColumnMapping

/-- GoogleSheetsClient._detect_columns.  readResult is none when the header
read raises (the source logs the error and returns), some rows otherwise;
some [] models result.get('values', []) being empty.  prev is the state of
self.column_mapping before the call: none while the attribute has never
been assigned (a fresh client), some m after an earlier detection.  The
source returns early on both failure branches, before the default mapping
is ever assigned. -/
def detect_columns (readResult : Option (List (List String)))
    (prev : Option ColumnMapping) : Option ColumnMapping :=
  match readResult with
  | none => prev
  | some [] => prev
  | some (headers :: _) => some (detectColumnsStep headers)

/-!  Date representations (_find_date_row's search_formats). -/

def englishMonths : List String :=
  ["January", "February", "March", "April", "May", "June", "July", "August",
   "September", "October", "November", "December"]

/-- dutch_months.get(month_name, month_name) of _find_date_row. -/
def dutchMonthOf : String → String
  | "January" => "januari"
  | "February" => "februari"
  | "March" => "maart"
  | "April" => "april"
  | "May" => "mei"
  | "June" => "juni"
  | "July" => "juli"
  | "August" => "augustus"
  | "September" => "september"
  | "October" => "oktober"
  | "November" => "november"
  | "December" => "december"
  | m => m

/-- dutch_weekdays.get(weekday, weekday) of _find_date_row. -/
def dutchWeekdayOf : String → String
  | "Monday" => "Maandag"
  | "Tuesday" => "Dinsdag"
  | "Wednesday" => "Woensdag"
  | "Thursday" => "Donderdag"
  | "Friday" => "Vrijdag"
  | "Saturday" => "Zaterdag"
  | "Sunday" => "Zondag"
  | w => w

/-- Gregorian day of week by Zeller's congruence (0 = Saturday); agrees
with datetime.strftime("%A") on every valid date. -/
def weekdayName (y m d : Nat) : String :=
  let mm := if m < 3 then m + 12 else m
  let yy := if m < 3 then y - 1 else y
  let k := yy % 100
  let j := yy / 100
  let h := (d + (13 * (mm + 1)) / 5 + k + k / 4 + j / 4 + 5 * j) % 7
  ["Saturday", "Sunday", "Monday", "Tuesday", "Wednesday", "Thursday", "Friday"].getD h ""

def isLeapYear (y : Nat) : Bool :=
  y % 4 = 0 && (y % 100 ≠ 0 || y % 400 = 0)

def daysInMonth (y m : Nat) : Nat :=
  if m = 2 then (if isLeapYear y then 29 else 28)
  else if m = 4 || m = 6 || m = 9 || m = 11 then 30
  else 31

/-- Arguments accepted by the datetime(year, month, day) constructor. -/
def validDate (y m d : Nat) : Bool :=
  1 ≤ y && y ≤ 9999 && 1 ≤ m && m ≤ 12 && 1 ≤ d && d ≤ daysInMonth y m

/-- Base-10 value of a digit list. -/
def digitsVal : List Char → Nat → Nat
  | [], acc => acc
  | c :: cs, acc => digitsVal cs (acc * 10 + (c.toNat - 48))

/-- Python int(s) for the sign-free parts produced by the split: a value
when s is a non-empty digit string, none (the ValueError branch)
otherwise. -/
def pyToNat (s : String) : Option Nat :=
  if s != "" && s.toList.all Char.isDigit then some (digitsVal s.toList 0) else none

/-- The search_formats list built inside _find_date_row: the raw string,
then (when "-" occurs, the split has three parts, the parts are numeric and
datetime accepts them) the English long form, the Dutch long form and the
two day+month partial forms.  Any failure inside the try block happens
before the first append, so the failure branch keeps only the raw string.
Python's int() is modelled on digit strings (pyToNat); the split parts can
carry no sign because '-' is the separator.  The year part is interpolated
verbatim, as in the source's f-strings. -/
def searchFormats (dateStr : String) : List String :=
  if pyContains "-" dateStr then
    match pySplitOn '-' dateStr with
    | [ds, ms, ys] =>
      match pyToNat ds, pyToNat ms, pyToNat ys with
      | some d, some m, some y =>
        if validDate y m d then
          let weekday := weekdayName y m d
          let dayNum := toString d
          let monthName := englishMonths.getD (m - 1) ""
          let engDate := weekday ++ " " ++ dayNum ++ " " ++ monthName ++ " " ++ ys
          let dutchDate :=
            dutchWeekdayOf weekday ++ " " ++ dayNum ++ " " ++ dutchMonthOf monthName ++ " " ++ ys
          [dateStr, engDate, dutchDate,
           dayNum ++ " " ++ dutchMonthOf monthName, dayNum ++ " " ++ monthName]
        else [dateStr]
      | _, _, _ => [dateStr]
    | _ => [dateStr]
  else [dateStr]

/-!  The sheet model: a grid of string cells.  Rows are 1-based as in the
API ranges; columns are 0-based indices (the source converts them to
column letters, a pure renaming this model skips).  Reads reproduce the
values API trimming: trailing empty cells of a row and trailing empty rows
of a range are absent from the response. -/

abbrev Row := List String
abbrev Sheet := List Row

def dropTrailingEmpty (l : List String) : List String :=
  (l.reverse.dropWhile (· = "")).reverse

/-- One whole-column read: one entry per row, "" for an empty cell,
trailing empties trimmed. -/
def readColumn (sheet : Sheet) (c : Nat) : List String :=
  dropTrailingEmpty (sheet.map fun row => row.getD c "")

def trimRow (r : Row) : Row := dropTrailingEmpty r

def dropTrailingEmptyRows (l : List Row) : List Row :=
  (l.reverse.dropWhile (· = [])).reverse

/-- Row-range read of rows a..b (1-based, inclusive). -/
def readRows (sheet : Sheet) (a b : Nat) : List Row :=
  dropTrailingEmptyRows (((sheet.drop (a - 1)).take (b - a + 1)).map trimRow)

/-- Single-cell read: none when the cell is empty (no 'values' in the
response). -/
def readCell (sheet : Sheet) (r c : Nat) : Option String :=
  let v := (sheet.getD (r - 1) []).getD c ""
  if v = "" then none else some v

/-- Set position c of a row, growing it with empty cells as needed. -/
def listSetPad (l : List String) (c : Nat) (v : String) : List String :=
  (l ++ List.replicate (c + 1 - l.length) "").set c v

/-- Single-cell write, growing the sheet as the API does. -/
def setCell (sheet : Sheet) (r c : Nat) (v : String) : Sheet :=
  let sheet := sheet ++ List.replicate (r - sheet.length) ([] : Row)
  sheet.set (r - 1) (listSetPad (sheet.getD (r - 1) []) c v)

/-- Range write of vals into row r starting at column A (the source always
writes from column A); columns past the written range keep their content. -/
def writeRowAt (sheet : Sheet) (r : Nat) (vals : Row) : Sheet :=
  let sheet := sheet ++ List.replicate (r - sheet.length) ([] : Row)
  sheet.set (r - 1) (vals ++ (sheet.getD (r - 1) []).drop vals.length)

/-- A work_data dict.  Missing keys are the none/"" values (dict.get
defaults).  The numeric payload (hours, hourly_rate, revenue) is modelled
over Nat and rendered with toString: the row-placement logic under
verification never inspects these cells, only the date and client
columns. -/
structure WorkData where
  date : Option String
  client : String
  client_code : String
  project : String
  description : String
  hours : Option Nat
  billable : Bool
  hourly_rate : Option Nat
deriving DecidableEq, Repr

def maxColumn (cm : ColumnMapping) : Nat := (cm.map Prod.snd).foldl Nat.max 0

/-- Dictionary access self.column_mapping[k]; every use site has the key
present (the mapping always carries the six fields). -/
def colOf (cm : ColumnMapping) (k : String) : Nat := (alistGet cm k).getD 0

/-- Rendering of an optional numeric cell (None clears the cell). -/
def natCell : Option Nat → String
  | some n => toString n
  | none => ""

/-- GoogleSheetsClient._format_row_data.  nowDate and nowTs stand for the
two datetime.now() readings (date default and trailing timestamp). -/
def format_row_data (cm : ColumnMapping) (wd : WorkData) (nowDate nowTs : String) : Row :=
  let row := List.replicate (maxColumn cm + 2) ""
  let row := row.set (colOf cm "date") (wd.date.getD nowDate)
  let row := row.set (colOf cm "client")
    (if wd.client_code ≠ "" then wd.client_code else wd.client)
  let row := row.set (colOf cm "description") wd.description
  let row :=
    if wd.billable then
      (row.set (colOf cm "hours") (natCell wd.hours)).set (colOf cm "unbillable_hours") ""
    else
      (row.set (colOf cm "hours") "").set (colOf cm "unbillable_hours") (natCell wd.hours)
  let row :=
    if wd.billable && wd.hours.getD 0 != 0 then
      row.set (colOf cm "revenue") (toString (wd.hours.getD 0 * wd.hourly_rate.getD 85))
    else
      row.set (colOf cm "revenue") ""
  row.set (maxColumn cm + 1) nowTs

/-- The cell comparison of _find_date_row: case-insensitive equality, or
the representation contained in the cell. -/
def dateCellHit (formats : List String) (cellValue : String) : Bool :=
  formats.any fun f =>
    pyLower cellValue = pyLower f || pyContains (pyLower f) (pyLower cellValue)

/-- The scan loop of _find_date_row (i is the 0-based position; empty
cells are skipped). -/
def findDateRowAux (formats : List String) : List String → Nat → Nat
  | [], _ => 0
  | c :: rest, i =>
    if c = "" then findDateRowAux formats rest (i + 1)
    else if dateCellHit formats (pyStrip c) then i + 1
    else findDateRowAux formats rest (i + 1)

/-- GoogleSheetsClient._find_date_row: first matching row of the date
column, 1-based; 0 when none matches. -/
def find_date_row (cm : ColumnMapping) (sheet : Sheet) (dateStr : String) : Nat :=
  findDateRowAux (searchFormats dateStr) (readColumn sheet (colOf cm "date")) 0

/-- The row test of _find_client_row: the row reaches past the client
column, its date cell is populated, and its client cell equals the
searched string (the source compares against work_data's raw client
name). -/
def clientRowHit (cm : ColumnMapping) (clientStr : String) (row : Row) : Bool :=
  decide (colOf cm "client" < row.length) &&
  (decide (colOf cm "date" < row.length) && row.getD (colOf cm "date") "" != "" &&
   row.getD (colOf cm "client") "" == clientStr)

def findClientRowAux (cm : ColumnMapping) (clientStr : String) (dateRow : Nat) :
    List Row → Nat → Nat
  | [], _ => 0
  | row :: rest, i =>
    if clientRowHit cm clientStr row then dateRow + i
    else findClientRowAux cm clientStr dateRow rest (i + 1)

/-- GoogleSheetsClient._find_client_row: scan the rows strictly after the
matched date row (values[1:]) inside the date_row..date_row+10 window. -/
def find_client_row (cm : ColumnMapping) (sheet : Sheet) (dateStr clientStr : String) : Nat :=
  let dateRow := find_date_row cm sheet dateStr
  if dateRow = 0 then 0
  else
    let values := readRows sheet dateRow (dateRow + 10)
    findClientRowAux cm clientStr dateRow (values.drop 1) 1

/-- The bounded forward scan of _insert_row_after over offsets 1..5,
carrying the last row seen with the same date; a missing or empty cell or
a different date stops the scan. -/
def insertRowAfterAux (cm : ColumnMapping) (sheet : Sheet) (dateVal : String)
    (rowIndex : Nat) : List Nat → Nat → Nat
  | [], last => last
  | i :: rest, last =>
    match readCell sheet (rowIndex + i) (colOf cm "date") with
    | some cd =>
      if cd = dateVal || pyContains dateVal cd then
        insertRowAfterAux cm sheet dateVal rowIndex rest (rowIndex + i)
      else last
    | none => last

/-- GoogleSheetsClient._insert_row_after. -/
def insert_row_after (cm : ColumnMapping) (sheet : Sheet) (rowIndex : Nat) : Nat :=
  match readCell sheet rowIndex (colOf cm "date") with
  | none => rowIndex + 1
  | some dateVal =>
    insertRowAfterAux cm sheet dateVal rowIndex [1, 2, 3, 4, 5] rowIndex + 1

structure WriteResult where
  sheet : Sheet
  ok : Bool
  row : Nat
deriving DecidableEq, Repr

/-- GoogleSheetsClient.add_work_entry over a healthy backend (every
read/write round trip succeeds; the except branches merely rejoin this
control flow with degraded data and cannot fire in a pure model).  The
append branch reads column A:A literally, hence column index 0. -/
def add_work_entry (cm : ColumnMapping) (sheet : Sheet) (wd : WorkData)
    (nowDate nowTs : String) : WriteResult :=
  let formatted := format_row_data cm wd nowDate nowTs
  let dateStr := wd.date.getD nowDate
  let clientStr := wd.client
  let dateRow := find_date_row cm sheet dateStr
  let target :=
    if dateRow > 0 then
      let clientRow := find_client_row cm sheet dateStr clientStr
      if clientRow > 0 then (sheet, clientRow)
      else
        let r := insert_row_after cm sheet dateRow
        (setCell sheet r (colOf cm "date") dateStr, r)
    else
      (sheet, (readColumn sheet 0).length + 1)
  { sheet := writeRowAt target.1 target.2 formatted, ok := true, row := target.2 }

/-!  BramifyBot (src/core/bot.py): message processing and the
client-code slot-filling conversation.  The Telegram transport and the
Claude extraction call are external collaborators: an inbound message is
modelled by the extraction result it yields, replies by outcome values,
and the spreadsheet write by the boolean the backend would return. -/

/-- self.pending_work_entries: a dict keyed by user id, modelled as the
lookup function it denotes (at most one record per user). -/
def PendingStore : Type := Nat → Option WorkData

def emptyPending : PendingStore := fun _ => none

/-- Python pending[uid] = wd. -/
def pendSet (p : PendingStore) (uid : Nat) (wd : WorkData) : PendingStore :=
  fun k => if k = uid then some wd else p k

/-- Python del pending[uid]. -/
def pendDel (p : PendingStore) (uid : Nat) : PendingStore :=
  fun k => if k = uid then none else p k

/-- An extraction result of ClaudeClient.analyze_work_entry, restricted to
the fields _process_message reads.  None/absent string fields are "". -/
structure Analysis where
  is_work_entry : Bool
  date : Option String
  client : String
  project : String
  hours : Option Nat
  billable : Bool
  description : String
deriving DecidableEq, Repr

inductive PMOutcome where
  /-- add_work_entry was called with this record; ok is the backend answer. -/
  | committed (wd : WorkData) (ok : Bool)
  /-- record stored as pending, prompt sent with this suggested code. -/
  | promptForCode (wd : WorkData) (suggested : String)
  /-- work entry without update object: apologetic refusal, nothing stored. -/
  | cantProcess
  /-- not a work entry: free conversation. -/
  | chat
deriving DecidableEq, Repr

structure PMResult where
  pending : PendingStore
  outcome : PMOutcome

/-- BramifyBot._process_message, lines 160-225: build work_data from the
analysis, look the client up, commit immediately when a (truthy) code is
known, otherwise park the record in pending_work_entries and prompt. -/
def process_message (mapper : ClientStore) (pending : PendingStore) (uid : Nat)
    (a : Analysis) (hasUpdate : Bool) (writeOk : Bool) : PMResult :=
  if a.is_work_entry then
    let wd : WorkData :=
      { date := a.date, client := a.client, client_code := "", project := a.project,
        description := a.description, hours := a.hours, billable := a.billable,
        hourly_rate := none }
    let code : Option String :=
      if a.client ≠ "" then get_code mapper a.client else none
    match code with
    | some c =>
      if c ≠ "" then
        { pending := pending, outcome := .committed { wd with client_code := c } writeOk }
      else if hasUpdate then
        { pending := pendSet pending uid wd,
          outcome := .promptForCode wd (suggest_code_for_client a.client) }
      else
        { pending := pending, outcome := .cantProcess }
    | none =>
      if hasUpdate then
        { pending := pendSet pending uid wd,
          outcome := .promptForCode wd (suggest_code_for_client a.client) }
      else
        { pending := pending, outcome := .cantProcess }
  else
    { pending := pending, outcome := .chat }

/-- The externally visible actions of handle_client_code, in execution
order. -/
inductive Effect where
  | addMap (name code : String)
  | sheetWrite (wd : WorkData)
  | delPending (uid : Nat)
deriving DecidableEq, Repr

def Effect.isDel : Effect → Bool
  | .delPending _ => true
  | _ => false

def Effect.isWrite : Effect → Bool
  | .sheetWrite _ => true
  | _ => false

inductive HCOutcome where
  | noPending
  | saved (wd : WorkData) (ok : Bool)
  | invalidRetry
deriving DecidableEq, Repr

structure HCResult where
  mapper : ClientStore
  pending : PendingStore
  trace : List Effect
  outcome : HCOutcome

/-- BramifyBot.handle_client_code, lines 315-375: strip the reply; without
a pending entry end the conversation; with a non-empty reply register the
mapping, write the sheet, then delete the pending entry unconditionally
(the source's statement order is add_mapping, add_work_entry, del) and
report; with an empty reply re-prompt.  writeOk is the boolean
add_work_entry returns.  The records created by _process_message always
carry the client key, so the dict.get "Unknown" default is dead. -/
def handle_client_code (mapper : ClientStore) (pending : PendingStore) (uid : Nat)
    (text : String) (writeOk : Bool) : HCResult :=
  let userInput := pyStrip text
  match pending uid with
  | none => { mapper := mapper, pending := pending, trace := [], outcome := .noPending }
  | some wd =>
    let clientName := wd.client
    if userInput ≠ "" then
      let mapper2 := add_mapping mapper clientName userInput
      let ncode := normalize_code userInput
      let wd2 := { wd with client_code := ncode }
      { mapper := mapper2,
        pending := pendDel pending uid,
        trace := [.addMap clientName userInput, .sheetWrite wd2, .delPending uid],
        outcome := .saved wd2 writeOk }
    else
      { mapper := mapper, pending := pending, trace := [], outcome := .invalidRetry }

/-!  Claim-side characterisations, written after the words of the claims
and compared with the source embeddings above. -/

/-- The cell comparison as claim C3 states it: case-insensitive equality
or containment in either direction. -/
def claimDateCellHit (formats : List String) (cellValue : String) : Bool :=
  formats.any fun f =>
    pyLower cellValue = pyLower f || pyContains (pyLower f) (pyLower cellValue) ||
      pyContains (pyLower cellValue) (pyLower f)

/-- Date-row lookup as claim C3 states it: topmost non-empty date-column
cell accepted by claimDateCellHit, 1-based, 0 when none. -/
def claimFindDateRow (cm : ColumnMapping) (sheet : Sheet) (dateStr : String) : Nat :=
  match (readColumn sheet (colOf cm "date")).findIdx?
      (fun c => c != "" && claimDateCellHit (searchFormats dateStr) (pyStrip c)) with
  | some i => i + 1
  | none => 0

/-- Date-row lookup as the code has it, phrased declaratively (the amended
form of C3): containment only of the representation in the cell. -/
def specFindDateRow (cm : ColumnMapping) (sheet : Sheet) (dateStr : String) : Nat :=
  match (readColumn sheet (colOf cm "date")).findIdx?
      (fun c => c != "" && dateCellHit (searchFormats dateStr) (pyStrip c)) with
  | some i => i + 1
  | none => 0

/-- The index of the last header assigned to field k by the detection
loop, if any (the amended tie-break of C4). -/
def lastMatchIdx (headers : List String) (k : String) : Option Nat :=
  (headers.enum.filterMap fun p =>
    if headerField p.2 = some k then some p.1 else none).getLast?

/-- Characters a suggested code can consist of (the amended charset of
C5). -/
def isCodeChar (c : Char) : Bool := c.isUpper || c.isDigit || c == '_'

/-!  General lemmas about the embedding. -/

theorem strmk_length (l : List Char) : (String.mk l).length = l.length := rfl

theorem strmk_toList (l : List Char) : (String.mk l).toList = l := rfl

theorem toList_empty_eq (s : String) (h : s.toList = []) : s = "" := by
  have h2 : String.mk s.data = String.mk [] := congrArg String.mk h
  exact h2

theorem listInfix_nil (l : List Char) : listInfix [] l = true := by
  cases l <;> simp [listInfix, listStarts, List.isEmpty]

theorem char_toNat_ofNat_of_lt (n : Nat) (h : n < 55296) : (Char.ofNat n).toNat = n := by
  rw [Char.ofNat, dif_pos (Or.inl h)]
  simp [Char.ofNatAux, Char.toNat, UInt32.ofNat', UInt32.toNat]

theorem toUpper_not_lower (c : Char) : (Char.toUpper c).isLower = false := by
  unfold Char.toUpper
  by_cases h : c.toNat ≥ 97 ∧ c.toNat ≤ 122
  · rw [if_pos h]
    have h2 : c.toNat - 32 < 55296 := by omega
    have h3 := char_toNat_ofNat_of_lt (c.toNat - 32) h2
    rw [Char.isLower]
    have hnot : ¬ ((Char.ofNat (c.toNat - 32)).val ≥ 97) := by
      intro hge
      have h4 : (97 : Nat) ≤ (Char.ofNat (c.toNat - 32)).toNat :=
        UInt32.le_toNat_of_le (by norm_num) hge
      omega
    simp [hnot]
  · rw [if_neg h]
    rw [Char.isLower]
    by_cases hge : c.val ≥ 97
    · have h1 : (97 : Nat) ≤ c.toNat := UInt32.le_toNat_of_le (by norm_num) hge
      have hnot : ¬ (c.val ≤ 122) := by
        intro hle
        have h2 : c.toNat ≤ 122 := UInt32.toNat_le_of_le (by norm_num) hle
        exact h ⟨h1, h2⟩
      simp [hnot]
    · simp [hge]

/-- Runs produced by the word splitter are non-empty and consist of word
characters of the input (or of the accumulator). -/
theorem wordRunsAux_spec (cs : List Char) : ∀ (acc : List Char),
    (∀ c ∈ acc, isWordChar c = true) →
    ∀ r ∈ wordRunsAux cs acc, r ≠ [] ∧ ∀ c ∈ r, isWordChar c = true ∧ (c ∈ cs ∨ c ∈ acc) := by
  induction cs with
  | nil =>
    intro acc hacc r hr
    unfold wordRunsAux at hr
    by_cases he : acc.isEmpty
    · simp [he] at hr
    · simp [he] at hr
      subst hr
      refine ⟨by simpa using he, ?_⟩
      intro c hc
      rw [List.mem_reverse] at hc
      exact ⟨hacc c hc, Or.inr hc⟩
  | cons a as ih =>
    intro acc hacc r hr
    unfold wordRunsAux at hr
    by_cases hwc : isWordChar a = true
    · rw [if_pos hwc] at hr
      have := ih (a :: acc) (by
        intro c hc
        rcases List.mem_cons.mp hc with h | h
        · subst h; exact hwc
        · exact hacc c h) r hr
      refine ⟨this.1, ?_⟩
      intro c hc
      obtain ⟨h1, h2⟩ := this.2 c hc
      refine ⟨h1, ?_⟩
      rcases h2 with h | h
      · exact Or.inl (List.mem_cons_of_mem a h)
      · rcases List.mem_cons.mp h with h | h
        · exact Or.inl (h ▸ List.mem_cons_self a as)
        · exact Or.inr h
    · rw [if_neg hwc] at hr
      by_cases he : acc.isEmpty
      · rw [if_pos he] at hr
        have := ih [] (by simp) r hr
        refine ⟨this.1, ?_⟩
        intro c hc
        obtain ⟨h1, h2⟩ := this.2 c hc
        rcases h2 with h | h
        · exact ⟨h1, Or.inl (List.mem_cons_of_mem a h)⟩
        · simp at h
      · rw [if_neg he] at hr
        rcases List.mem_cons.mp hr with h | h
        · subst h
          refine ⟨by simpa using he, ?_⟩
          intro c hc
          rw [List.mem_reverse] at hc
          exact ⟨hacc c hc, Or.inr hc⟩
        · have := ih [] (by simp) r h
          refine ⟨this.1, ?_⟩
          intro c hc
          obtain ⟨h1, h2⟩ := this.2 c hc
          rcases h2 with h | h
          · exact ⟨h1, Or.inl (List.mem_cons_of_mem a h)⟩
          · simp at h

theorem mem_pyUpper_not_lower (s : String) (c : Char) (h : c ∈ (pyUpper s).toList) :
    c.isLower = false := by
  unfold pyUpper at h
  rw [strmk_toList] at h
  obtain ⟨a, _, ha⟩ := List.mem_map.mp h
  exact ha ▸ toUpper_not_lower a

theorem wordchar_good (c : Char) (h1 : isWordChar c = true) (h2 : c.isLower = false) :
    isCodeChar c = true := by
  unfold isWordChar at h1
  unfold isCodeChar
  simp [Char.isAlphanum, Char.isAlpha, h2] at h1 ⊢
  tauto

theorem head_mem_of_ne_nil (l : List Char) (h : l ≠ []) : l.headD ' ' ∈ l := by
  obtain ⟨a, t, rfl⟩ := List.exists_cons_of_ne_nil h
  simp

theorem sfr_single (w : List Char) : suggestFromRuns [w] =
    (if w.length ≥ 3 then String.mk (w.take 3)
     else String.mk (w ++ List.replicate (3 - w.length) 'X')) := rfl

theorem sfr_two (w w2 : List Char) : suggestFromRuns [w, w2] =
    String.mk [w.headD ' ', w2.headD ' ', w.headD ' '] := by
  unfold suggestFromRuns
  simp [List.take]

theorem sfr_three (w w2 w3 : List Char) (ws : List (List Char)) :
    suggestFromRuns (w :: w2 :: w3 :: ws) =
    String.mk [w.headD ' ', w2.headD ' ', w3.headD ' '] := by
  unfold suggestFromRuns
  simp [List.take]

/-- A normalized non-empty code always has exactly three characters. -/
theorem normalize_code_length (s : String) (h : s ≠ "") : (normalize_code s).length = 3 := by
  unfold normalize_code
  rw [if_neg h]
  by_cases h3 : ((pyUpper s).toList.filter fun c => 'A' ≤ c && c ≤ 'Z').length > 3
  · rw [if_pos h3, strmk_length, List.length_take]
    omega
  · rw [if_neg h3, strmk_length, List.length_append, List.length_replicate]
    omega

theorem normalize_code_ne_empty (s : String) (h : s ≠ "") : normalize_code s ≠ "" := by
  intro heq
  have h3 := normalize_code_length s h
  rw [heq] at h3
  exact absurd h3 (by decide)

theorem pyLower_empty_iff (s : String) : pyLower s = "" ↔ s = "" := by
  constructor
  · intro h
    unfold pyLower at h
    have := congrArg String.toList h
    rw [strmk_toList] at this
    exact toList_empty_eq s (List.map_eq_nil_iff.mp this)
  · intro h
    subst h
    rfl

/-- Two strings with the same lowercase form have the same normalized
client name (case-variant queries collapse). -/
theorem normalize_congr_lower (a b : String) (h : pyLower a = pyLower b) :
    normalize_client_name a = normalize_client_name b := by
  unfold normalize_client_name
  by_cases ha : a = ""
  · subst ha
    have hb : b = "" := by
      rw [← pyLower_empty_iff]
      exact h.symm ▸ rfl
    subst hb
    rfl
  · have hb : b ≠ "" := by
      intro hb
      subst hb
      exact ha (pyLower_empty_iff a |>.mp (h.trans rfl))
    rw [if_neg ha, if_neg hb, h]

/-- Updating a dictionary leaves existing keys present. -/
theorem alistGet_set_keeps {α : Type} (m : List (String × α)) (a k : String) (v : α)
    (h : (alistGet m k).isSome = true) : (alistGet (alistSet m a v) k).isSome = true := by
  induction m with
  | nil => simp [alistGet] at h
  | cons p rest ih =>
    obtain ⟨k1, w⟩ := p
    by_cases h1 : k1 = a
    · subst h1
      rw [alistSet, if_pos rfl]
      rw [alistGet] at h ⊢
      by_cases h2 : k1 = k
      · rw [if_pos h2]; rfl
      · rw [if_neg h2] at h ⊢; exact h
    · rw [alistSet, if_neg h1]
      rw [alistGet] at h ⊢
      by_cases h2 : k1 = k
      · rw [if_pos h2]; rfl
      · rw [if_neg h2] at h ⊢; exact ih h

theorem alistGet_set_self {α : Type} (m : List (String × α)) (k : String) (v : α) :
    alistGet (alistSet m k v) k = some v := by
  induction m with
  | nil => simp [alistSet, alistGet]
  | cons p rest ih =>
    obtain ⟨k1, w⟩ := p
    by_cases h1 : k1 = k
    · subst h1
      rw [alistSet, if_pos rfl, alistGet, if_pos rfl]
    · rw [alistSet, if_neg h1, alistGet, if_neg h1]
      exact ih

theorem alistGet_set_ne {α : Type} (m : List (String × α)) (a k : String) (v : α)
    (h : k ≠ a) : alistGet (alistSet m a v) k = alistGet m k := by
  induction m with
  | nil =>
    simp [alistSet, alistGet, Ne.symm h]
  | cons p rest ih =>
    obtain ⟨k1, w⟩ := p
    by_cases h1 : k1 = a
    · subst h1
      rw [alistSet, if_pos rfl, alistGet, alistGet]
      by_cases h2 : k1 = k
      · exact absurd h2.symm h
      · rw [if_neg h2, if_neg h2]
    · rw [alistSet, if_neg h1, alistGet, alistGet]
      by_cases h2 : k1 = k
      · rw [if_pos h2, if_pos h2]
      · rw [if_neg h2, if_neg h2]
        exact ih

/-- The header loop only ever updates fields, so every key present before
the loop is still present after it. -/
theorem detectStep_keeps (l : List (Nat × String)) (k : String) :
    ∀ m : ColumnMapping, (alistGet m k).isSome = true →
    (alistGet (l.foldl (fun m p =>
      match headerField p.2 with
      | some k2 => alistSet m k2 p.1
      | none => m) m) k).isSome = true := by
  induction l with
  | nil => intro m h; exact h
  | cons p rest ih =>
    intro m h
    rw [List.foldl_cons]
    apply ih
    cases hf : headerField p.2 with
    | none => exact h
    | some k2 => exact alistGet_set_keeps m k2 k p.1 h

theorem gFilter_cons (k : String) (p : Nat × String) (rest : List (Nat × String)) :
    (List.filterMap (fun q => if headerField q.2 = some k then some q.1 else none) (p :: rest)) =
    (if headerField p.2 = some k
     then p.1 :: List.filterMap (fun q => if headerField q.2 = some k then some q.1 else none) rest
     else List.filterMap (fun q => if headerField q.2 = some k then some q.1 else none) rest) := by
  rw [List.filterMap_cons]
  by_cases h : headerField p.2 = some k
  · rw [if_pos h, if_pos h]
  · rw [if_neg h, if_neg h]

/-- The header loop realises last-match-wins: the final column of a field
is the index of the last header assigned to it, the incoming value when no
header matches. -/
theorem detectFold_lookup (k : String) (l : List (Nat × String)) :
    ∀ m : ColumnMapping,
    alistGet (l.foldl (fun m p =>
      match headerField p.2 with
      | some k2 => alistSet m k2 p.1
      | none => m) m) k =
    ((l.filterMap fun q =>
        if headerField q.2 = some k then some q.1 else none).getLast?).or (alistGet m k) := by
  induction l with
  | nil => intro m; rfl
  | cons p rest ih =>
    intro m
    rw [List.foldl_cons, ih, gFilter_cons]
    by_cases hfk : headerField p.2 = some k
    · rw [if_pos hfk, hfk]
      cases hM : rest.filterMap fun q =>
          (if headerField q.2 = some k then some q.1 else none) with
      | nil =>
        rw [List.getLast?_singleton, List.getLast?_nil, Option.none_or, Option.or_some]
        exact alistGet_set_self m k p.1
      | cons y M =>
        rw [List.getLast?_cons_cons]
        cases hg : (y :: M).getLast? with
        | none => exact absurd (List.getLast?_eq_none_iff.mp hg) (by simp)
        | some z => rw [Option.or_some, Option.or_some]
    · rw [if_neg hfk]
      cases hf : headerField p.2 with
      | none => rfl
      | some k2 =>
        rw [hf] at hfk
        have hne : k ≠ k2 := fun he => hfk (by rw [he])
        cases hM : rest.filterMap fun q =>
            (if headerField q.2 = some k then some q.1 else none) with
        | nil =>
          rw [List.getLast?_nil, Option.none_or, Option.none_or]
          exact alistGet_set_ne m k2 k p.1 hne
        | cons y M => rfl

/-- The scan loop of _find_date_row is the first index whose cell is
non-empty and matches, shifted to 1-based. -/
theorem findDateRowAux_eq (formats : List String) (l : List String) :
    ∀ i, findDateRowAux formats l i =
      match l.findIdx? (fun c => c != "" && dateCellHit formats (pyStrip c)) i with
      | some j => j + 1
      | none => 0 := by
  induction l with
  | nil => intro i; rfl
  | cons c rest ih =>
    intro i
    rw [findDateRowAux, List.findIdx?_cons]
    by_cases h1 : c = ""
    · subst h1
      rw [if_pos rfl, ih (i + 1)]
      have hp : (("" : String) != "" && dateCellHit formats (pyStrip "")) = false := by
        simp
      rw [hp, if_neg (by simp)]
    · by_cases h2 : dateCellHit formats (pyStrip c) = true
      · rw [if_neg h1, if_pos h2]
        have hp : (c != "" && dateCellHit formats (pyStrip c)) = true := by
          simp [h1, h2]
        rw [hp, if_pos rfl]
      · rw [if_neg h1, if_neg h2, ih (i + 1)]
        have hp : (c != "" && dateCellHit formats (pyStrip c)) = false := by
          simp [h2]
        rw [hp, if_neg (by simp)]

/-- No key of the store is the empty string implies the exact-match branch
misses the empty normalized query. -/
theorem alistGet_empty_key_none (st : ClientStore) (h : ∀ kv ∈ st, kv.1 ≠ "") :
    alistGet st "" = none := by
  induction st with
  | nil => rfl
  | cons p rest ih =>
    obtain ⟨k1, v1⟩ := p
    rw [alistGet, if_neg (h (k1, v1) (List.mem_cons_self _ _))]
    exact ih fun kv hkv => h kv (List.mem_cons_of_mem _ hkv)

/-!  Claim theorems. -/

/-- Claim C2, counterexample: when the header read fails on a fresh client
(no mapping assigned yet), _detect_columns returns before the default
mapping is ever assigned, so the client is NOT left holding the hard-coded
default; the same happens when the read yields no values.  This refutes
the claim that the routine leaves the default in place and that a
SheetColumnMapping with all six keys results in every case. -/
theorem C2_counterexample :
    detect_columns none none = none ∧
    detect_columns none none ≠ some defaultColumnMapping ∧
    detect_columns (some []) none = none := by
  decide

/-- Claim C2 (amended): when the header row cannot be read (backend error
or empty response) _detect_columns leaves self.column_mapping exactly as
it was, including not assigned at all on a fresh client; only a
successful header read assigns a mapping, and that mapping always starts
from the hard-coded default and therefore carries all six semantic keys. -/
theorem C2_amended :
    (∀ prev, detect_columns none prev = prev) ∧
    (∀ prev, detect_columns (some []) prev = prev) ∧
    (∀ headers rest prev,
      detect_columns (some (headers :: rest)) prev = some (detectColumnsStep headers)) ∧
    (∀ headers,
      (sixFields.all fun k => (alistGet (detectColumnsStep headers) k).isSome) = true) := by
  refine ⟨fun _ => rfl, fun _ => rfl, fun _ _ _ => rfl, ?_⟩
  intro headers
  rw [List.all_eq_true]
  intro k hk
  have hbase : (alistGet defaultColumnMapping k).isSome = true := by
    simp only [sixFields, List.mem_cons, List.not_mem_nil, or_false] at hk
    rcases hk with rfl | rfl | rfl | rfl | rfl | rfl <;> decide
  exact detectStep_keeps headers.enum k defaultColumnMapping hbase

/-- Claim C3, counterexample: a date-column cell "26-03" is strictly
contained in the representation "26-03-2025" of the searched date, so the
claimed predicate (containment in either direction) accepts it and
demands row 1, but _find_date_row only tests whether a representation is
contained in the cell and returns 0 (not found). -/
theorem C3_counterexample :
    find_date_row defaultColumnMapping [["26-03"]] "26-03-2025" = 0 ∧
    claimFindDateRow defaultColumnMapping [["26-03"]] "26-03-2025" = 1 := by
  decide

/-- Claim C3 (amended): _find_date_row returns the topmost row (1-based, 0
when none) whose non-empty stripped cell compares case-insensitively
equal to some representation, or CONTAINS some representation; containment
of the cell in a representation is not accepted. -/
theorem C3_amended (cm : ColumnMapping) (sheet : Sheet) (d : String) :
    find_date_row cm sheet d = specFindDateRow cm sheet d := by
  unfold find_date_row specFindDateRow
  rw [findDateRowAux_eq]

/-- Claim C4, counterexample: in the header row ["Datum", "Date"] both
headers satisfy the date synonym test; the claim says the first
(index 0) wins, but the loop assigns the later index 1. -/
theorem C4_counterexample :
    alistGet (detectColumnsStep ["Datum", "Date"]) "date" = some 1 ∧ (1 : Nat) ≠ 0 := by
  decide

/-- Claim C4 (amended): the LAST (highest-index) header satisfying a
field's synonym test wins for that field — every later matching header
overrides the assignment; the default survives only for fields no header
matches. -/
theorem C4_amended (headers : List String) (k : String) :
    alistGet (detectColumnsStep headers) k =
      (lastMatchIdx headers k).or (alistGet defaultColumnMapping k) :=
  detectFold_lookup k headers.enum defaultColumnMapping

/-- Claim C5, counterexample: on the input "42" the suggested code is
"42X", which is 3 characters but not uppercase letters only (the regex
word characters include digits). -/
theorem C5_counterexample :
    suggest_code_for_client "42" = "42X" ∧
    ((suggest_code_for_client "42").toList.all Char.isUpper) = false := by
  decide

/-- Claim C5 (amended): suggest_code_for_client is deterministic (it is a
function of its input alone) and always returns exactly 3 characters;
each character is an uppercase letter, a digit, or an underscore — it is
uppercase letters only when the name's word characters are all letters,
but digits and underscores of the name flow into the code. -/
theorem C5_amended (name : String) :
    (suggest_code_for_client name).length = 3 ∧
    (suggest_code_for_client name).toList.all isCodeChar = true := by
  by_cases h0 : name = ""
  · subst h0
    constructor <;> decide
  · unfold suggest_code_for_client
    rw [if_neg h0]
    have hgood : ∀ r, r ∈ wordRuns (pyUpper name).toList → r ≠ [] ∧
        ∀ c ∈ r, isCodeChar c = true := by
      intro r hr
      have hs := wordRunsAux_spec (pyUpper name).toList [] (by simp) r hr
      refine ⟨hs.1, ?_⟩
      intro c hc
      obtain ⟨h1, h2⟩ := hs.2 c hc
      rcases h2 with h | h
      · exact wordchar_good c h1 (mem_pyUpper_not_lower name c h)
      · simp at h
    cases hw : wordRuns (pyUpper name).toList with
    | nil => constructor <;> decide
    | cons w ws =>
      have hwspec := hgood w (hw ▸ List.mem_cons_self w ws)
      cases ws with
      | nil =>
        rw [sfr_single]
        by_cases h3 : w.length ≥ 3
        · rw [if_pos h3]
          constructor
          · rw [strmk_length, List.length_take]
            omega
          · rw [strmk_toList, List.all_eq_true]
            intro c hc
            exact hwspec.2 c (List.mem_of_mem_take hc)
        · rw [if_neg h3]
          constructor
          · rw [strmk_length, List.length_append, List.length_replicate]
            omega
          · rw [strmk_toList, List.all_eq_true]
            intro c hc
            rcases List.mem_append.mp hc with h | h
            · exact hwspec.2 c h
            · rw [List.eq_of_mem_replicate h]
              decide
      | cons w2 ws2 =>
        have hw2spec := hgood w2 (hw ▸ List.mem_cons_of_mem w (List.mem_cons_self w2 ws2))
        cases ws2 with
        | nil =>
          rw [sfr_two]
          constructor
          · rw [strmk_length]
            rfl
          · rw [strmk_toList, List.all_eq_true]
            intro c hc
            simp only [List.mem_cons, List.not_mem_nil, or_false] at hc
            rcases hc with h | h | h
            · exact h ▸ hwspec.2 _ (head_mem_of_ne_nil w hwspec.1)
            · exact h ▸ hw2spec.2 _ (head_mem_of_ne_nil w2 hw2spec.1)
            · exact h ▸ hwspec.2 _ (head_mem_of_ne_nil w hwspec.1)
        | cons w3 ws3 =>
          have hw3spec := hgood w3 (hw ▸ List.mem_cons_of_mem w
            (List.mem_cons_of_mem w2 (List.mem_cons_self w3 ws3)))
          rw [sfr_three]
          constructor
          · rw [strmk_length]
            rfl
          · rw [strmk_toList, List.all_eq_true]
            intro c hc
            simp only [List.mem_cons, List.not_mem_nil, or_false] at hc
            rcases hc with h | h | h
            · exact h ▸ hwspec.2 _ (head_mem_of_ne_nil w hwspec.1)
            · exact h ▸ hw2spec.2 _ (head_mem_of_ne_nil w2 hw2spec.1)
            · exact h ▸ hw3spec.2 _ (head_mem_of_ne_nil w3 hw3spec.1)

/-- Claim C6, counterexample: suggest_code_for_client "Globex Corp" is not
"GCC" — the multi-word pad rule pads with the repeated first letter of the
FIRST word ('G'), not with the first letter of the second word. -/
theorem C6_counterexample : suggest_code_for_client "Globex Corp" ≠ "GCC" := by
  decide

/-- Claim C6 (amended): for the two-word name "Globex Corp" the suggested
code is "GCG": the first letters "GC" of the two words padded to three
characters with 'G', the repeated first letter of the first word. -/
theorem C6_amended : suggest_code_for_client "Globex Corp" = "GCG" := by
  decide

/-- A record with a known client code, as used to refute claim C1. -/
def c1Record : WorkData :=
  { date := some "26-03-2025", client := "Acme", client_code := "ACM", project := "",
    description := "API work", hours := some 4, billable := true, hourly_rate := some 85 }

def c1First : WriteResult := add_work_entry defaultColumnMapping [] c1Record "26-03-2025" "t1"

def c1Second : WriteResult :=
  add_work_entry defaultColumnMapping c1First.sheet c1Record "26-03-2025" "t2"

/-- Claim C1, counterexample: writing the same (date, client) record twice
on a fresh sheet produces TWO rows, not one update.  The first call
appends its row (which carries the date); the second call finds that row
as the date block head, but _find_client_row skips the date row itself
(values[1:]) and compares the client cell against the raw client name
while the cell holds the client code, so the existing row is never
located and a second row is written below it. -/
theorem C1_counterexample :
    c1First.row = 1 ∧ c1Second.row = 2 ∧ c1Second.sheet.length = 2 ∧
    (c1Second.sheet.getD 0 []).getD 0 "" = "26-03-2025" ∧
    (c1Second.sheet.getD 1 []).getD 0 "" = "26-03-2025" ∧
    (c1Second.sheet.getD 0 []).getD 1 "" = "ACM" ∧
    (c1Second.sheet.getD 1 []).getD 1 "" = "ACM" := by
  decide

/-- A record without a client code over a template date row, the one
situation where the upsert does locate and overwrite (claim C1 amended). -/
def c1xRecord (client desc : String) : WorkData :=
  { date := some "26-03-2025", client := client, client_code := "", project := "",
    description := desc, hours := some 4, billable := true, hourly_rate := some 85 }

/-- A template sheet holding one pre-populated date-only row. -/
def templateSheet : Sheet := [["26-03-2025"]]

theorem c1_client_match (client desc : String) :
    find_client_row defaultColumnMapping
      [["26-03-2025"], ["26-03-2025", client, desc, "4", "", "340", "t1"]]
      "26-03-2025" client = 2 := by
  have hhit : clientRowHit defaultColumnMapping client
      ["26-03-2025", client, desc, "4", "", "340", "t1"] = true := by
    simp [clientRowHit, colOf, alistGet, defaultColumnMapping]
  show findClientRowAux defaultColumnMapping client 1
    [["26-03-2025", client, desc, "4", "", "340", "t1"]] 1 = 2
  rw [findClientRowAux, hhit]
  simp

/-- Claim C1 (amended): the upsert matches the client cell against the
RAW client name only, and only in the rows strictly below the matched
date row.  Hence in the one configuration the source supports — a
pre-existing date-only block row, a record without a client code (so the
cell holds the raw name), written strictly below that date row — writing
the same (date, client) twice is idempotent: the second call locates the
row written by the first via the client match and fully overwrites it,
and no second row appears. -/
theorem C1_amended (client desc : String) :
    add_work_entry defaultColumnMapping templateSheet (c1xRecord client desc)
        "26-03-2025" "t1" =
      { sheet := [["26-03-2025"], ["26-03-2025", client, desc, "4", "", "340", "t1"]],
        ok := true, row := 2 } ∧
    find_client_row defaultColumnMapping
        [["26-03-2025"], ["26-03-2025", client, desc, "4", "", "340", "t1"]]
        "26-03-2025" client = 2 ∧
    add_work_entry defaultColumnMapping
        [["26-03-2025"], ["26-03-2025", client, desc, "4", "", "340", "t1"]]
        (c1xRecord client desc) "26-03-2025" "t2" =
      { sheet := [["26-03-2025"], ["26-03-2025", client, desc, "4", "", "340", "t2"]],
        ok := true, row := 2 } := by
  refine ⟨?_, c1_client_match client desc, ?_⟩
  · simp only [add_work_entry, format_row_data, c1xRecord, templateSheet]
    rfl
  · simp only [add_work_entry, c1xRecord, Option.getD_some]
    rw [c1_client_match client desc,
      show find_date_row defaultColumnMapping
        [["26-03-2025"], ["26-03-2025", client, desc, "4", "", "340", "t1"]]
        "26-03-2025" = 1 from rfl]
    show { sheet := writeRowAt
            [["26-03-2025"], ["26-03-2025", client, desc, "4", "", "340", "t1"]] 2
            (format_row_data defaultColumnMapping (c1xRecord client desc) "26-03-2025" "t2"),
           ok := true, row := 2 } =
      ({ sheet := [["26-03-2025"], ["26-03-2025", client, desc, "4", "", "340", "t2"]],
         ok := true, row := 2 } : WriteResult)
    rw [show format_row_data defaultColumnMapping (c1xRecord client desc) "26-03-2025" "t2" =
        ["26-03-2025", client, desc, "4", "", "340", "t2"] by
      simp only [format_row_data, c1xRecord]
      rfl]
    rfl

/-- Claim C7: after add_mapping(name, code) on a fresh store, get_code
returns the normalized code for the exact name, for a superset query
whose normalized form contains the normalized name as a substring (the
lookup operates on the normalized query, so containment is stated on
normalized forms), and for a case-variant of the name. -/
theorem C7_lookup_after_insert (name code q_sup q_case : String)
    (hsup : pyContains (normalize_client_name name) (normalize_client_name q_sup) = true)
    (hcase : pyLower q_case = pyLower name) :
    get_code (add_mapping [] name code) name = some (normalize_code code) ∧
    get_code (add_mapping [] name code) q_sup = some (normalize_code code) ∧
    get_code (add_mapping [] name code) q_case = some (normalize_code code) := by
  have hstore : add_mapping [] name code =
      [(normalize_client_name name, normalize_code code)] := rfl
  refine ⟨?_, ?_, ?_⟩
  · rw [hstore]
    simp only [get_code]
    simp [alistGet]
  · rw [hstore]
    simp only [get_code]
    by_cases he : normalize_client_name name = normalize_client_name q_sup
    · simp [alistGet, he]
    · rw [alistGet, if_neg he]
      simp only [alistGet, List.findSome?_cons]
      have hcond : (pyContains (normalize_client_name q_sup) (normalize_client_name name) ||
          pyContains (normalize_client_name name) (normalize_client_name q_sup)) = true := by
        rw [hsup, Bool.or_true]
      rw [if_pos hcond]
  · have hn := normalize_congr_lower q_case name hcase
    rw [hstore]
    simp only [get_code]
    rw [hn]
    simp [alistGet]

/-- Claim C7, witness: a concrete round trip through
C7_lookup_after_insert. -/
theorem C7_lookup_after_insert_witness :
    get_code (add_mapping [] "Acme Corp" "glx") "Acme Corp" = some (normalize_code "glx") ∧
    get_code (add_mapping [] "Acme Corp" "glx") "Acme Corporation BV" =
      some (normalize_code "glx") ∧
    get_code (add_mapping [] "Acme Corp" "glx") "ACME CORP" = some (normalize_code "glx") :=
  C7_lookup_after_insert "Acme Corp" "glx" "Acme Corporation BV" "ACME CORP"
    (by decide) (by decide)

/-- Claim C8: on both conversational paths that reach the persistence
call — immediate resolution inside _process_message, and slot-filling
resolution of a non-empty reply inside handle_client_code — the record
handed to add_work_entry carries a non-empty client_code. -/
theorem C8_commit_guard :
    (∀ (mapper : ClientStore) (pending : PendingStore) (uid : Nat) (a : Analysis)
        (hasU wOk : Bool) (wd : WorkData) (ok : Bool),
      (process_message mapper pending uid a hasU wOk).outcome = PMOutcome.committed wd ok →
      wd.client_code ≠ "") ∧
    (∀ (mapper : ClientStore) (pending : PendingStore) (uid : Nat) (text : String)
        (wOk : Bool) (wd : WorkData) (ok : Bool),
      (handle_client_code mapper pending uid text wOk).outcome = HCOutcome.saved wd ok →
      wd.client_code ≠ "") := by
  constructor
  · intro mapper pending uid a hasU wOk wd ok h
    simp only [process_message] at h
    by_cases hw : a.is_work_entry = true
    · rw [if_pos hw] at h
      cases hc : (if a.client ≠ "" then get_code mapper a.client else none) with
      | none =>
        simp only [hc] at h
        by_cases hu : hasU = true
        · rw [if_pos hu] at h
          simp at h
        · rw [if_neg hu] at h
          simp at h
      | some c =>
        simp only [hc] at h
        by_cases hcne : c ≠ ""
        · rw [if_pos hcne] at h
          simp only [PMOutcome.committed.injEq] at h
          obtain ⟨h1, _⟩ := h
          rw [← h1]
          simpa using hcne
        · rw [if_neg hcne] at h
          by_cases hu : hasU = true
          · rw [if_pos hu] at h
            simp at h
          · rw [if_neg hu] at h
            simp at h
    · rw [if_neg hw] at h
      simp at h
  · intro mapper pending uid text wOk wd ok h
    simp only [handle_client_code] at h
    cases hp : pending uid with
    | none =>
      simp only [hp] at h
      simp at h
    | some wd0 =>
      simp only [hp] at h
      by_cases hin : pyStrip text ≠ ""
      · rw [if_pos hin] at h
        simp only [HCOutcome.saved.injEq] at h
        obtain ⟨h1, _⟩ := h
        rw [← h1]
        simpa using normalize_code_ne_empty (pyStrip text) hin
      · rw [if_neg hin] at h
        simp at h

/-- The extraction result driving the C8 witness' immediate path. -/
def c8Analysis : Analysis :=
  { is_work_entry := true, date := some "26-03-2025", client := "Acme", project := "",
    hours := some 4, billable := true, description := "API work" }

/-- The record the immediate path commits for c8Analysis. -/
def c8Committed : WorkData :=
  { date := some "26-03-2025", client := "Acme", client_code := "ACM", project := "",
    description := "API work", hours := some 4, billable := true, hourly_rate := none }

/-- The pending record driving the C8 witness' slot-filling path. -/
def c8PendingRecord : WorkData :=
  { date := some "26-03-2025", client := "Globex Corp", client_code := "", project := "",
    description := "API work", hours := some 4, billable := true, hourly_rate := none }

/-- The record the slot-filling path commits for the reply "GLX". -/
def c8Saved : WorkData := { c8PendingRecord with client_code := "GLX" }

/-- Claim C8, witness: both paths at concrete inputs, with the guard
obtained from C8_commit_guard. -/
theorem C8_commit_guard_witness :
    (process_message [("acme", "ACM")] emptyPending 1 c8Analysis true true).outcome =
      PMOutcome.committed c8Committed true ∧
    c8Committed.client_code ≠ "" ∧
    (handle_client_code [] (pendSet emptyPending 7 c8PendingRecord) 7 "GLX" true).outcome =
      HCOutcome.saved c8Saved true ∧
    c8Saved.client_code ≠ "" := by
  refine ⟨by decide, ?_, by decide, ?_⟩
  · exact (C8_commit_guard).1 [("acme", "ACM")] emptyPending 1 c8Analysis true true
      c8Committed true (by decide)
  · exact (C8_commit_guard).2 [] (pendSet emptyPending 7 c8PendingRecord) 7 "GLX" true
      c8Saved true (by decide)

/-- Claim C9, counterexample: in the non-empty store whose second entry
has the empty normalized name as its key, a query normalizing to ""
takes the exact-match branch and returns the second entry's code, not
the first-inserted mapping's code via the fallback as the claim states. -/
theorem C9_counterexample :
    normalize_client_name "!!!" = "" ∧
    get_code [("a", "AAA"), ("", "BBB")] "!!!" = some "BBB" ∧
    get_code [("a", "AAA"), ("", "BBB")] "!!!" ≠ some "AAA" := by
  decide

/-- Claim C9 (amended): for every non-empty client mapping none of whose
keys is the empty string, get_code on any name whose normalization is
empty returns the code of the first-inserted mapping (the empty query is
a substring of every key, so the fallback scan stops at the first
entry). -/
theorem C9_amended (store : ClientStore) (q : String) (hne : store ≠ [])
    (hkeys : (store.all fun kv => kv.1 != "") = true)
    (hq : normalize_client_name q = "") :
    get_code store q = store.head?.map Prod.snd := by
  obtain ⟨⟨k, c⟩, rest, rfl⟩ := List.exists_cons_of_ne_nil hne
  have hkeys2 : ∀ kv ∈ (k, c) :: rest, kv.1 ≠ "" := by
    rw [List.all_eq_true] at hkeys
    intro kv hkv
    have := hkeys kv hkv
    simpa using this
  simp only [get_code, hq]
  rw [alistGet_empty_key_none _ hkeys2]
  simp only [List.findSome?_cons]
  have hcond : (pyContains "" k || pyContains k "") = true := by
    rw [show pyContains "" k = true from listInfix_nil k.toList, Bool.true_or]
  rw [if_pos hcond]
  rfl

/-- Claim C9, witness: "the " normalizes to "" and resolves to the sole
stored code via C9_amended. -/
theorem C9_amended_witness :
    get_code [("acmecorp", "ACM")] "the " = some "ACM" :=
  C9_amended [("acmecorp", "ACM")] "the " (by decide) (by decide) (by decide)

/-- The pending record used by the C10 theorems. -/
def c10Record : WorkData :=
  { date := some "26-03-2025", client := "Globex Corp", client_code := "", project := "",
    description := "API work", hours := some 4, billable := true, hourly_rate := none }

/-- Claim C10, counterexample: in a failing-write run of handle_client_code
the pending-entry deletion does NOT happen before the persistence result
is known: the trace places the sheet write at position 1 and the deletion
at position 2, after the write has returned its boolean. -/
theorem C10_counterexample :
    (handle_client_code [] (pendSet emptyPending 7 c10Record) 7 "GLX" false).trace =
      [Effect.addMap "Globex Corp" "GLX",
       Effect.sheetWrite { c10Record with client_code := "GLX" },
       Effect.delPending 7] ∧
    (handle_client_code [] (pendSet emptyPending 7 c10Record) 7 "GLX" false).trace.findIdx?
      Effect.isWrite = some 1 ∧
    (handle_client_code [] (pendSet emptyPending 7 c10Record) 7 "GLX" false).trace.findIdx?
      Effect.isDel = some 2 := by
  decide

/-- Claim C10 (amended): handle_client_code registers the client-code
mapping BEFORE the sheet write and deletes the pending entry
unconditionally right AFTER the write returns, so when the write fails
the pending record is already gone from the store and the new mapping
remains — no state is restored on error. -/
theorem C10_amended (mapper : ClientStore) (pending : PendingStore) (uid : Nat)
    (text : String) (wd : WorkData)
    (hpend : pending uid = some wd) (hinput : pyStrip text ≠ "") :
    (handle_client_code mapper pending uid text false).pending uid = none ∧
    alistGet (handle_client_code mapper pending uid text false).mapper
        (normalize_client_name wd.client) = some (normalize_code (pyStrip text)) ∧
    (handle_client_code mapper pending uid text false).trace =
      [Effect.addMap wd.client (pyStrip text),
       Effect.sheetWrite { wd with client_code := normalize_code (pyStrip text) },
       Effect.delPending uid] ∧
    (handle_client_code mapper pending uid text false).outcome =
      HCOutcome.saved { wd with client_code := normalize_code (pyStrip text) } false := by
  simp only [handle_client_code, hpend]
  rw [if_pos hinput]
  refine ⟨?_, ?_, rfl, rfl⟩
  · simp [pendDel]
  · exact alistGet_set_self mapper (normalize_client_name wd.client)
      (normalize_code (pyStrip text))

/-- Claim C10, witness: the amended statement at a concrete failing run. -/
theorem C10_amended_witness :
    (handle_client_code [] (pendSet emptyPending 7 c10Record) 7 "GLX" false).pending 7 =
      none ∧
    alistGet (handle_client_code [] (pendSet emptyPending 7 c10Record) 7 "GLX" false).mapper
        (normalize_client_name c10Record.client) = some (normalize_code (pyStrip "GLX")) ∧
    (handle_client_code [] (pendSet emptyPending 7 c10Record) 7 "GLX" false).trace =
      [Effect.addMap c10Record.client (pyStrip "GLX"),
       Effect.sheetWrite { c10Record with client_code := normalize_code (pyStrip "GLX") },
       Effect.delPending 7] ∧
    (handle_client_code [] (pendSet emptyPending 7 c10Record) 7 "GLX" false).outcome =
      HCOutcome.saved { c10Record with client_code := normalize_code (pyStrip "GLX") }
        false :=
  C10_amended [] (pendSet emptyPending 7 c10Record) 7 "GLX" c10Record (by decide) (by decide)

end Bramify
